import Mathlib

/-!
Verification of the event-transforming markdown renderer in
`src/components/rendering/src/markdown.rs` (`markdown_to_html`).

The single pass over pulldown-cmark events is embedded shallowly: the
mutable locals of the Rust function become the fields of `RenderState`,
the event-rewriting closure becomes `processEvent`, and the external
collaborators (tera template engine, shortcode regex and parser, slug
crate, syntect highlighter, permalink table, tokenizer, HTML serializer,
table-of-contents builder) are abstract function fields of `Context`,
exactly as the specification treats them (interface boundary only).
-/

namespace Zola

/-- Modelled from the spec: the anchor-insertion policy of the
`front_matter` crate (not under src/): `Left | Right | None`. -/
inductive InsertAnchor where
  | Left
  | Right
  | None
deriving DecidableEq

/-- Modelled from the spec: the PendingHeader scratch record of the
`table_of_contents` module (not under src/): nesting level (0 is the
"no header" sentinel), identifier, title and permalink. -/
structure TempHeader where
  level : Nat := 0
  id : String := ""
  title : String := ""
  permalink : String := ""
deriving DecidableEq

/-- Modelled from the spec: `TempHeader::new(level)` begins a pending
header at the given nesting level. -/
def TempHeader.new (level : Nat) : TempHeader :=
  { level := level }

/-- Modelled from the spec: the ShortcodeBuilder of the `short_code`
module (not under src/): a name, an argument list and the accumulated
raw body text. -/
structure ShortCode where
  name : String
  args : List (String × String)
  body : String
deriving DecidableEq

/-- Modelled from the spec: `ShortCode::new(name, args)` opens a builder
with an empty body. -/
def ShortCode.new (name : String) (args : List (String × String)) : ShortCode :=
  ⟨name, args, ""⟩

/-- Modelled from the spec: `ShortCode::append` accumulates raw body text
verbatim. -/
def ShortCode.append (sc : ShortCode) (text : String) : ShortCode :=
  { sc with body := sc.body ++ text }

/-- The state of one `syntect::easy::HighlightLines`: the selected
grammar, the theme binding, and (abstractly) the lines already fed to it,
standing for its internal line-continuation state. -/
structure HighlightLines where
  grammar : String
  theme : String
  processed : List String
deriving DecidableEq

/-- The pulldown-cmark tags this core inspects; every other tag is
`Other` and passes through the catch-all arm. -/
inductive Tag where
  | Paragraph
  | CodeBlock (info : String)
  | Link (dest : String) (title : String)
  | Code
  | Header (level : Nat)
  | Other (kind : Nat)
deriving DecidableEq

/-- A pulldown-cmark structural event. -/
inductive Event where
  | Text (s : String)
  | Html (s : String)
  | Start (t : Tag)
  | End (t : Tag)
  | SoftBreak
  | Other (kind : Nat)
deriving DecidableEq

/-- Rust `str::starts_with`, on the character sequence. -/
def startsWithS (s p : String) : Bool :=
  p.data.isPrefixOf s.data

/-- Rust `str::ends_with`, on the character sequence. -/
def endsWithS (s p : String) : Bool :=
  p.data.isSuffixOf s.data

/-- Whitespace test backing the model of Rust `str::trim` (the ASCII
whitespace characters relevant to the event texts at hand). -/
def isWhitespaceChar (c : Char) : Bool :=
  c == ' ' || c == '\t' || c == '\n' || c == '\r'

/-- Rust `str::trim`: drop whitespace from both ends. -/
def trimS (s : String) : String :=
  ⟨((s.data.dropWhile isWhitespaceChar).reverse.dropWhile isWhitespaceChar).reverse⟩

/-- Does `pat` occur as a contiguous run inside `hay`? (Model of Rust
`str::contains` with a literal pattern.) -/
def hasInfixChars (pat : List Char) : List Char → Bool
  | [] => pat.isPrefixOf []
  | c :: rest => pat.isPrefixOf (c :: rest) || hasInfixChars pat rest

/-- Rust `str::contains` with a literal pattern. -/
def containsSubstr (s pat : String) : Bool :=
  hasInfixChars pat.data s.data

/-- The RenderContext handed to `markdown_to_html`, together with the
external collaborators it drives, each abstracted to a pure function at
its interface boundary (spec section 6). -/
structure Context where
  /-- config: is code highlighting enabled. -/
  highlight_code : Bool
  /-- config: active highlight theme name. -/
  highlight_theme : String
  /-- the current page permalink. -/
  current_page_permalink : String
  /-- the anchor-insertion policy. -/
  insert_anchor : InsertAnchor
  /-- Modelled from the spec: `utils::site::resolve_internal_link` with the
  permalink table (not under src/): a relative path resolves to an absolute
  permalink or fails. -/
  resolve_internal_link : String → Option String
  /-- `render_simple_shortcode(tera, name, args)`: template engine call for
  the inline form; returns rendered text or a templating error. -/
  render_simple_shortcode : String → List (String × String) → Except String String
  /-- `ShortCode::render(tera)` on (name, args, accumulated body). -/
  render_shortcode : String → List (String × String) → String → Except String String
  /-- `tera.render("anchor-link.html", ...)` with the header id (the source
  unwraps, so it is total here). -/
  render_anchor_link : String → String
  /-- `SHORTCODE_RE.is_match`. -/
  shortcode_re : String → Bool
  /-- `parse_shortcode`: name and argument list of a matched invocation. -/
  parse_shortcode : String → String × List (String × String)
  /-- the `slug` crate `slugify`. -/
  slugify : String → String
  /-- `find_syntax_by_token` of the grammar registry. -/
  find_grammar_by_token : String → Option String
  /-- `find_syntax_plain_text`: the plain-text fallback grammar. -/
  plain_grammar : String
  /-- `HighlightLines::highlight` followed by `styles_to_coloured_html`:
  one line rendered against the highlighter state. -/
  highlight_line : HighlightLines → String → String
  /-- `start_coloured_html_snippet(theme)`. -/
  snippet_for_theme : String → String
  /-- `Parser::new_ext(content, tables+footnotes)`: the external tokenizer. -/
  tokenize : String → List Event
  /-- `cmark::html::push_html`: the external HTML serializer. -/
  push_html : List Event → String
  /-- `make_table_of_contents` on the collected header records. -/
  make_table_of_contents : List TempHeader → List TempHeader

/-- Modelled from the spec: `context.should_insert_anchor()` (the
`context` crate is not under src/): anchor insertion is enabled exactly
when the policy is not `None`. -/
def Context.should_insert_anchor (ctx : Context) : Bool :=
  match ctx.insert_anchor with
  | .None => false
  | _ => true

/-- The mutable locals of `markdown_to_html`, set while parsing. -/
structure RenderState where
  error : Option String := none
  highlighter : Option HighlightLines := none
  shortcode_block : Option ShortCode := none
  added_shortcode : Bool := false
  in_code_block : Bool := false
  in_header : Bool := false
  header_already_inserted : Bool := false
  anchors : List String := []
  headers : List TempHeader := []
  temp_header : TempHeader := {}
deriving DecidableEq

/-- `format!("\x7b\x7d-\x7b\x7d", name, k)`: the candidate anchor built
from a slug and a numeric suffix. -/
def anchorName (name : String) (k : Nat) : String :=
  name ++ "-" ++ Nat.repr k

/-! ### Decimal representation facts

`find_anchor_unbounded` recurses on an incrementing numeric suffix; its
termination rests on pairwise-distinct candidate strings, hence on the
injectivity of `Nat.repr`, proved here through a fold-back roundtrip. -/

/-- Numeric value of a decimal digit character. -/
def digitVal (c : Char) : Nat :=
  c.toNat - 48

/-- Folding the decimal digits of `n` (most significant first) onto an
accumulator `a`. -/
def pushDigits (a n : Nat) : Nat :=
  if _h : n < 10 then 10 * a + n
  else 10 * pushDigits a (n / 10) + n % 10
termination_by n
decreasing_by exact Nat.div_lt_self (by omega) (by omega)

theorem digitVal_digitChar (n : Nat) (h : n < 10) :
    digitVal (Nat.digitChar n) = n := by
  interval_cases n <;> rfl

theorem pushDigits_zero (n : Nat) : pushDigits 0 n = n := by
  induction n using Nat.strong_induction_on with
  | _ n ih =>
    unfold pushDigits
    split
    · omega
    · rw [ih (n / 10) (Nat.div_lt_self (by omega) (by omega))]
      omega

theorem toDigitsCore_foldl (fuel : Nat) : ∀ n ds a, n < fuel →
    (Nat.toDigitsCore 10 fuel n ds).foldl (fun a c => 10 * a + digitVal c) a
      = ds.foldl (fun a c => 10 * a + digitVal c) (pushDigits a n) := by
  induction fuel with
  | zero => omega
  | succ fuel ih =>
    intro n ds a h
    rw [Nat.toDigitsCore]
    by_cases h10 : n / 10 = 0
    · rw [if_pos h10, List.foldl_cons]
      rw [digitVal_digitChar (n % 10) (Nat.mod_lt n (by omega))]
      unfold pushDigits
      rw [dif_pos (by omega)]
      have : n % 10 = n := Nat.mod_eq_of_lt (by omega)
      rw [this]
    · rw [if_neg h10]
      rw [ih (n / 10) _ a (by omega)]
      simp only [List.foldl_cons]
      rw [digitVal_digitChar (n % 10) (Nat.mod_lt n (by omega))]
      congr 1
      conv_rhs => unfold pushDigits
      rw [dif_neg (by omega)]

theorem natRepr_foldl (n : Nat) :
    (Nat.repr n).data.foldl (fun a c => 10 * a + digitVal c) 0 = n := by
  show (Nat.toDigits 10 n).foldl (fun a c => 10 * a + digitVal c) 0 = n
  rw [Nat.toDigits, toDigitsCore_foldl (n + 1) n [] 0 (by omega)]
  exact pushDigits_zero n

theorem natRepr_inj {m n : Nat} (h : Nat.repr m = Nat.repr n) : m = n := by
  have hm := natRepr_foldl m
  rw [h, natRepr_foldl] at hm
  omega

theorem strAppend_cancel {s a b : String} (h : s ++ a = s ++ b) : a = b := by
  apply String.ext
  have hd : s.data ++ a.data = s.data ++ b.data := by
    rw [← String.data_append, ← String.data_append, h]
  exact List.append_cancel_left hd

theorem anchorName_inj (name : String) {k₁ k₂ : Nat}
    (h : anchorName name k₁ = anchorName name k₂) : k₁ = k₂ := by
  unfold anchorName at h
  rw [String.append_assoc, String.append_assoc] at h
  exact natRepr_inj (strAppend_cancel (strAppend_cancel h))

/-! ### The anchor allocator -/

/-- How many of the candidate suffixes `1 .. level` are already taken in
the registry: the termination measure of `find_anchor_unbounded`. -/
def usedBelow (anchors : List String) (name : String) (level : Nat) : Nat :=
  (List.range level).countP (fun i => anchors.contains (anchorName name (i + 1)))

theorem usedBelow_succ (anchors : List String) (name : String) (level : Nat)
    (h : anchors.contains (anchorName name (level + 1)) = true) :
    usedBelow anchors name (level + 1) = usedBelow anchors name level + 1 := by
  have hm : anchorName name (level + 1) ∈ anchors := by simpa using h
  unfold usedBelow
  rw [List.range_succ, List.countP_append]
  simp [hm]

theorem usedBelow_le (anchors : List String) (name : String) (level : Nat) :
    usedBelow anchors name level ≤ anchors.length := by
  unfold usedBelow
  rw [List.countP_eq_length_filter]
  set p : Nat → Bool := fun i => anchors.contains (anchorName name (i + 1)) with hp
  have hinj : Function.Injective (fun i => anchorName name (i + 1)) := by
    intro i j hij
    have := anchorName_inj name hij
    omega
  have hnd : (((List.range level).filter p).map (fun i => anchorName name (i + 1))).Nodup :=
    ((List.nodup_range level).filter p).map hinj
  have hsub : ((List.range level).filter p).map (fun i => anchorName name (i + 1)) ⊆ anchors := by
    intro x hx
    rcases List.mem_map.mp hx with ⟨i, hi, rfl⟩
    have hpi := (List.mem_filter.mp hi).2
    rw [hp] at hpi
    simpa using hpi
  have hle := (List.subperm_of_subset hnd hsub).length_le
  simpa using hle

/-- The recursion of `find_anchor` (`markdown.rs` lines 53-64) with the
`u8` level idealised as an unbounded counter: if `level` is 0 and the
slug is unused, use it as-is, otherwise probe `name-(level+1)` and
recurse.  (The source binds the candidate to a local `new_anchor`, here
written `anchorName name (level + 1)` at both occurrences.)  The source
level is a `u8`, so 255 + 1 wraps (release) or panics (debug); the
faithful model is `find_anchor` below, and `find_anchor_go_agree` proves
this idealisation exact whenever some candidate with suffix 1..255 is
free - in particular on every run where the source terminates without
overflowing its counter. -/
def find_anchor_unbounded (anchors : List String) (name : String) (level : Nat) : String :=
  if level == 0 && !(anchors.contains name) then
    name
  else if !(anchors.contains (anchorName name (level + 1))) then
    anchorName name (level + 1)
  else
    find_anchor_unbounded anchors name (level + 1)
termination_by anchors.length + 1 - usedBelow anchors name level
decreasing_by
  rename_i _h1 h2
  have hc : anchors.contains (anchorName name (level + 1)) = true := by
    simpa using h2
  have hs := usedBelow_succ anchors name level hc
  have hl := usedBelow_le anchors name level
  omega

theorem find_anchor_unbounded_not_mem (anchors : List String) (name : String) :
    ∀ level, find_anchor_unbounded anchors name level ∉ anchors := by
  suffices h : ∀ k level, anchors.length + 1 - usedBelow anchors name level ≤ k →
      find_anchor_unbounded anchors name level ∉ anchors by
    intro level
    exact h _ level le_rfl
  intro k
  induction k with
  | zero =>
    intro level hle
    have := usedBelow_le anchors name level
    omega
  | succ k ih =>
    intro level hle
    rw [find_anchor_unbounded.eq_def]
    by_cases h0 : (level == 0 && !(anchors.contains name)) = true
    · rw [if_pos h0]
      rcases Bool.and_eq_true_iff.mp h0 with ⟨-, hnc⟩
      simp only [Bool.not_eq_true'] at hnc
      simpa using hnc
    · rw [if_neg h0]
      by_cases hfree : (!(anchors.contains (anchorName name (level + 1)))) = true
      · rw [if_pos hfree]
        simp only [Bool.not_eq_true'] at hfree
        simpa using hfree
      · rw [if_neg hfree]
        have hc : anchors.contains (anchorName name (level + 1)) = true := by
          simpa using hfree
        have hs := usedBelow_succ anchors name level hc
        have hl := usedBelow_le anchors name level
        exact ih (level + 1) (by omega)

theorem find_anchor_unbounded_spec (anchors : List String) (name : String) :
    ∀ level, (∀ M, 1 ≤ M → M ≤ level → anchorName name M ∈ anchors) →
      (level ≠ 0 ∨ name ∈ anchors) →
      ∃ N, find_anchor_unbounded anchors name level = anchorName name N ∧ level + 1 ≤ N ∧
        anchorName name N ∉ anchors ∧
        ∀ M, 1 ≤ M → M < N → anchorName name M ∈ anchors := by
  suffices h : ∀ k level, anchors.length + 1 - usedBelow anchors name level ≤ k →
      (∀ M, 1 ≤ M → M ≤ level → anchorName name M ∈ anchors) →
      (level ≠ 0 ∨ name ∈ anchors) →
      ∃ N, find_anchor_unbounded anchors name level = anchorName name N ∧ level + 1 ≤ N ∧
        anchorName name N ∉ anchors ∧
        ∀ M, 1 ≤ M → M < N → anchorName name M ∈ anchors by
    intro level
    exact h _ level le_rfl
  intro k
  induction k with
  | zero =>
    intro level hle
    have := usedBelow_le anchors name level
    omega
  | succ k ih =>
    intro level hle hall hnz
    rw [find_anchor_unbounded.eq_def]
    by_cases h0 : (level == 0 && !(anchors.contains name)) = true
    · exfalso
      rcases Bool.and_eq_true_iff.mp h0 with ⟨hz, hnc⟩
      simp only [beq_iff_eq] at hz
      simp only [Bool.not_eq_true'] at hnc
      rcases hnz with hnz | hnz
      · exact hnz hz
      · have hnm : name ∉ anchors := by simpa using hnc
        exact hnm hnz
    · rw [if_neg h0]
      by_cases hfree : (!(anchors.contains (anchorName name (level + 1)))) = true
      · rw [if_pos hfree]
        simp only [Bool.not_eq_true'] at hfree
        refine ⟨level + 1, rfl, le_rfl, by simpa using hfree, ?_⟩
        intro M h1 hM
        exact hall M h1 (by omega)
      · rw [if_neg hfree]
        have hc : anchors.contains (anchorName name (level + 1)) = true := by
          simpa using hfree
        have hs := usedBelow_succ anchors name level hc
        have hl := usedBelow_le anchors name level
        have hall' : ∀ M, 1 ≤ M → M ≤ level + 1 → anchorName name M ∈ anchors := by
          intro M h1 hM
          rcases Nat.lt_or_ge M (level + 1) with hlt | hge
          · exact hall M h1 (by omega)
          · have : M = level + 1 := by omega
            subst this
            simpa using hc
        rcases ih (level + 1) (by omega) hall' (Or.inl (by omega)) with
          ⟨N, hN, hNge, hNnm, hNmin⟩
        exact ⟨N, hN, by omega, hNnm, hNmin⟩

/-! ### The faithful 8-bit allocator

The source `find_anchor` takes `level: u8`, so `level + 1` is 8-bit
arithmetic: at `level = 255` a release build wraps 255 + 1 to 0 (a debug
build panics at the overflow) and the recursion re-enters the same cycle
of 256 candidates, spinning forever when all of them are registered. -/

/-- One fuelled unfolding of the source recursion under 8-bit wrapping
(release) arithmetic; `none` stands for fuel exhaustion. -/
def find_anchor_go (anchors : List String) (name : String) :
    Nat → Nat → Option String
  | 0, _ => none
  | fuel + 1, level =>
      if level == 0 && !(anchors.contains name) then
        some name
      else if !(anchors.contains (anchorName name ((level + 1) % 256))) then
        some (anchorName name ((level + 1) % 256))
      else
        find_anchor_go anchors name fuel ((level + 1) % 256)

/-- `find_anchor` of `markdown.rs` lines 53-64, with the `u8` level
modelled faithfully (its value below 256, successor taken modulo 2^8 as
a release build computes it).  258 units of fuel cover the entry call
plus one probe of each of the 256 distinct candidates `name-0` ..
`name-255`; once every candidate has been probed and found registered,
the source recursion repeats the same probes forever, so `none` is
returned exactly on the inputs where the release build never terminates
(a debug build panics when 255 + 1 overflows instead). -/
def find_anchor (anchors : List String) (name : String) (level : Nat) :
    Option String :=
  find_anchor_go anchors name 258 (level % 256)

theorem find_anchor_go_agree (anchors : List String) (name : String) :
    ∀ (k fuel level : Nat), 255 - level ≤ k → level + 1 ≤ 255 →
      256 - level ≤ fuel → (level = 0 → name ∈ anchors) →
      (∃ M, level + 1 ≤ M ∧ M ≤ 255 ∧ anchorName name M ∉ anchors) →
      find_anchor_go anchors name fuel level =
        some (find_anchor_unbounded anchors name level) := by
  intro k
  induction k with
  | zero =>
      intro fuel level h1 h2 _ _ _
      omega
  | succ k ih =>
      intro fuel level h1 h2 hfuel h0 hex
      obtain ⟨fuel', rfl⟩ : ∃ f, fuel = f + 1 := ⟨fuel - 1, by omega⟩
      have hwrap : (level + 1) % 256 = level + 1 := Nat.mod_eq_of_lt (by omega)
      simp only [find_anchor_go, hwrap]
      rw [find_anchor_unbounded.eq_def]
      by_cases hg : (level == 0 && !(anchors.contains name)) = true
      · exfalso
        rcases Bool.and_eq_true_iff.mp hg with ⟨hz, hcf⟩
        simp only [beq_iff_eq] at hz
        simp only [Bool.not_eq_true'] at hcf
        have hn : name ∉ anchors := by simpa using hcf
        exact hn (h0 hz)
      · rw [if_neg hg, if_neg hg]
        by_cases hfree : (!(anchors.contains (anchorName name (level + 1)))) = true
        · rw [if_pos hfree, if_pos hfree]
        · rw [if_neg hfree, if_neg hfree]
          have hcb : anchors.contains (anchorName name (level + 1)) = true := by
            simpa using hfree
          have hc : anchorName name (level + 1) ∈ anchors := by simpa using hcb
          rcases hex with ⟨M, hM1, hM2, hMf⟩
          by_cases h255 : level + 1 = 255
          · exfalso
            have hM : M = 255 := by omega
            subst hM
            rw [h255] at hc
            exact hMf hc
          · have hne : M ≠ level + 1 := fun he => hMf (he ▸ hc)
            exact ih fuel' (level + 1) (by omega) (by omega) (by omega)
              (by intro hz; omega) ⟨M, by omega, hM2, hMf⟩

theorem find_anchor_go_at255 (anchors : List String) (name : String)
    (h0f : anchorName name 0 ∉ anchors) (fuel : Nat) :
    find_anchor_go anchors name (fuel + 1) 255 = some (anchorName name 0) := by
  have hwrap : (255 + 1) % 256 = 0 := by norm_num
  simp only [find_anchor_go, hwrap]
  rw [if_neg (by simp), if_pos (by simpa using h0f)]

theorem find_anchor_go_fast (anchors : List String) (name : String)
    (h : anchors.contains name = false) (fuel : Nat) :
    find_anchor_go anchors name (fuel + 1) 0 = some name := by
  simp only [find_anchor_go]
  rw [if_pos (by simp; simpa using h)]

theorem find_anchor_go_wrap (anchors : List String) (name : String)
    (hname : name ∈ anchors)
    (hall : ∀ M, 1 ≤ M → M ≤ 255 → anchorName name M ∈ anchors)
    (h0f : anchorName name 0 ∉ anchors) :
    ∀ (k level fuel : Nat), 255 - level ≤ k → level ≤ 255 → 257 - level ≤ fuel →
      find_anchor_go anchors name fuel level = some (anchorName name 0) := by
  intro k
  induction k with
  | zero =>
      intro level fuel h1 h2 hf
      have hl : level = 255 := by omega
      subst hl
      obtain ⟨f, rfl⟩ : ∃ f, fuel = f + 1 := ⟨fuel - 1, by omega⟩
      exact find_anchor_go_at255 anchors name h0f f
  | succ k ih =>
      intro level fuel h1 h2 hf
      by_cases h255 : level = 255
      · subst h255
        obtain ⟨f, rfl⟩ : ∃ f, fuel = f + 1 := ⟨fuel - 1, by omega⟩
        exact find_anchor_go_at255 anchors name h0f f
      · obtain ⟨f, rfl⟩ : ∃ f, fuel = f + 1 := ⟨fuel - 1, by omega⟩
        have hwrap : (level + 1) % 256 = level + 1 := Nat.mod_eq_of_lt (by omega)
        simp only [find_anchor_go, hwrap]
        rw [if_neg (by simp; intro _; exact hname)]
        have hc : anchorName name (level + 1) ∈ anchors :=
          hall (level + 1) (by omega) (by omega)
        rw [if_neg (by simp; exact hc)]
        exact ih (level + 1) f (by omega) (by omega) (by omega)

theorem find_anchor_go_none (anchors : List String) (name : String)
    (hname : name ∈ anchors)
    (hall : ∀ M, 1 ≤ M → M ≤ 255 → anchorName name M ∈ anchors)
    (h0 : anchorName name 0 ∈ anchors) :
    ∀ (fuel level : Nat), level ≤ 255 →
      find_anchor_go anchors name fuel level = none := by
  intro fuel
  induction fuel with
  | zero =>
      intro level _
      rfl
  | succ fuel ih =>
      intro level hlev
      simp only [find_anchor_go]
      rw [if_neg (by simp; intro _; exact hname)]
      have hc : anchorName name ((level + 1) % 256) ∈ anchors := by
        rcases Nat.eq_zero_or_pos ((level + 1) % 256) with hz | hp
        · rw [hz]
          exact h0
        · refine hall _ (by omega) ?_
          have := Nat.mod_lt (level + 1) (show 0 < 256 by omega)
          omega
      rw [if_neg (by simp; exact hc)]
      refine ih ((level + 1) % 256) ?_
      have := Nat.mod_lt (level + 1) (show 0 < 256 by omega)
      omega

/-! ### The event transformer -/

/-- The `Event::Text` arm of the transformer closure
(`markdown.rs` lines 77-164). -/
def processText (ctx : Context) (st : RenderState) (text : String) :
    RenderState × Event :=
  match st.highlighter with
  | some hl =>
      ({ st with highlighter := some { hl with processed := hl.processed ++ [text] } },
        .Html (ctx.highlight_line hl text))
  | none =>
    if st.in_code_block then
      (st, .Text text)
    else if st.shortcode_block.isNone && startsWithS text "\x7b\x7b"
        && endsWithS text "\x7d\x7d" && ctx.shortcode_re text then
      -- Shortcode without body; `added_shortcode` is set before rendering.
      match ctx.render_simple_shortcode (ctx.parse_shortcode text).1 (ctx.parse_shortcode text).2 with
      | .ok s => ({ st with added_shortcode := true }, .Html ("</p>" ++ s))
      | .error e => ({ st with added_shortcode := true, error := some e }, .Html "")
    else if st.shortcode_block.isNone && startsWithS text "\x7b%"
        && endsWithS text "%\x7d" then
      -- Shortcode with a body: open a builder when the regex matches,
      -- emit empty text either way.
      if ctx.shortcode_re text then
        let pr := ctx.parse_shortcode text
        ({ st with shortcode_block := some (ShortCode.new pr.1 pr.2) }, .Text "")
      else
        (st, .Text "")
    else
      match st.shortcode_block with
      | some sc =>
          -- Body text or the end tag of an open shortcode.
          if trimS text == "\x7b% end %\x7d" then
            match ctx.render_shortcode sc.name sc.args sc.body with
            | .ok s => ({ st with added_shortcode := true }, .Html ("</p>" ++ s))
            | .error e => ({ st with added_shortcode := true, error := some e }, .Html "")
          else
            ({ st with shortcode_block := some (sc.append text) }, .Html "")
      | none =>
          if st.in_header then
            if st.header_already_inserted then
              (st, .Text text)
            else
              let id := find_anchor_unbounded st.anchors (ctx.slugify text) 0
              let anchor_link :=
                if ctx.should_insert_anchor then ctx.render_anchor_link id else ""
              let th : TempHeader :=
                { st.temp_header with
                    id := id,
                    title := text,
                    permalink := ctx.current_page_permalink ++ "#" ++ id }
              ({ st with
                    anchors := st.anchors ++ [id],
                    headers := st.headers ++ [th],
                    temp_header := {},
                    header_already_inserted := true },
                .Html (match ctx.insert_anchor with
                  | .Left => "id=\"" ++ id ++ "\">" ++ anchor_link ++ text
                  | .Right => "id=\"" ++ id ++ "\">" ++ text ++ anchor_link
                  | .None => "id=\"" ++ id ++ "\">" ++ text))
          else
            (st, .Text text)

/-- One step of the transformer closure of `markdown_to_html`
(`markdown.rs` lines 76-255): rewrite one event, updating the captured
state. -/
def processEvent (ctx : Context) (should_highlight : Bool) (st : RenderState) :
    Event → RenderState × Event
  | .Text text => processText ctx st text
  | .Start (.CodeBlock info) =>
      if !should_highlight then
        ({ st with in_code_block := true }, .Html "<pre><code>")
      else
        let grammar :=
          (ctx.find_grammar_by_token ((info.splitOn " ").headD "")).getD ctx.plain_grammar
        ({ st with
              in_code_block := true,
              highlighter := some ⟨grammar, ctx.highlight_theme, []⟩ },
          .Html (ctx.snippet_for_theme ctx.highlight_theme))
  | .End (.CodeBlock _info) =>
      if !should_highlight then
        ({ st with in_code_block := false }, .Html "</code></pre>\n")
      else
        ({ st with in_code_block := false, highlighter := none }, .Html "</pre>")
  | .Start (.Link link title) =>
      if st.in_header then
        (st, .Html "")
      else if startsWithS link "./" then
        match ctx.resolve_internal_link link with
        | some url => (st, .Start (.Link url title))
        | none =>
            ({ st with error := some ("Relative link " ++ link ++ " not found.") },
              .Html "")
      else
        (st, .Start (.Link link title))
  | .End (.Link link title) =>
      if st.in_header then (st, .Html "") else (st, .End (.Link link title))
  | .Start .Code => ({ st with in_code_block := true }, .Start .Code)
  | .End .Code => ({ st with in_code_block := false }, .End .Code)
  | .Start (.Header num) =>
      ({ st with in_header := true, temp_header := TempHeader.new num },
        .Html ("<h" ++ Nat.repr num ++ " "))
  | .End (.Header num) =>
      ({ st with in_header := false, header_already_inserted := false },
        .End (.Header num))
  | .End .Paragraph =>
      if st.added_shortcode then
        ({ st with added_shortcode := false }, .Html "")
      else
        (st, .End .Paragraph)
  | .SoftBreak =>
      if st.shortcode_block.isSome then (st, .Html "") else (st, .SoftBreak)
  | ev => (st, ev)

/-- Drive the whole (finite) event stream through the transformer,
collecting the rewritten events: the composition of the mapped parser
with the serializer draining it. -/
def processEvents (ctx : Context) (sh : Bool) :
    RenderState → List Event → RenderState × List Event
  | st, [] => (st, [])
  | st, ev :: evs =>
      let r := processEvent ctx sh st ev
      let rest := processEvents ctx sh r.1 evs
      (rest.1, r.2 :: rest.2)

/-- Every state the transformer passes through, in order (initial state
included): the instrumentation used to state whole-pass invariants. -/
def traceStates (ctx : Context) (sh : Bool) :
    RenderState → List Event → List RenderState
  | st, [] => [st]
  | st, ev :: evs => st :: traceStates ctx sh (processEvent ctx sh st ev).1 evs

/-- The up-front highlighting heuristic (`markdown.rs` lines 25-29). -/
def shouldHighlight (content : String) (ctx : Context) : Bool :=
  if ctx.highlight_code then containsSubstr content "```" else false

/-- `markdown_to_html` (`markdown.rs` lines 19-264): run the tokenizer
output through the transformer, serialize, and return either the first
stored error or the cleaned HTML with the table of contents. -/
def markdown_to_html (content : String) (ctx : Context) :
    Except String (String × List TempHeader) :=
  let sh := shouldHighlight content ctx
  let r := processEvents ctx sh {} (ctx.tokenize content)
  let html := ctx.push_html r.2
  match r.1.error with
  | some e => .error e
  | none => .ok (html.replace "<p></p>" "", ctx.make_table_of_contents r.1.headers)

/-! ### Step lemmas -/

theorem startsWithS_pc_not_bb {t : String} (h : startsWithS t "\x7b%" = true) :
    startsWithS t "\x7b\x7b" = false := by
  unfold startsWithS at h ⊢
  have hp : ("\x7b%" : String).data = ['\x7b', '%'] := rfl
  have hb : ("\x7b\x7b" : String).data = ['\x7b', '\x7b'] := rfl
  rw [hp] at h
  rw [hb]
  match hd : t.data with
  | [] => rw [hd] at h; simp [List.isPrefixOf] at h
  | [c] => rw [hd] at h; simp [List.isPrefixOf] at h
  | c :: d :: rest =>
      rw [hd] at h
      simp only [List.isPrefixOf, Bool.and_eq_true, beq_iff_eq] at h
      rcases h with ⟨hc, hd2, -⟩
      simp [List.isPrefixOf, hc, ← hd2]

theorem processText_highlighting {ctx : Context} {st : RenderState} {hl : HighlightLines}
    (text : String) (h : st.highlighter = some hl) :
    processText ctx st text =
      ({ st with highlighter := some { hl with processed := hl.processed ++ [text] } },
        .Html (ctx.highlight_line hl text)) := by
  unfold processText
  rw [h]

theorem processText_in_code_block {ctx : Context} {st : RenderState} (text : String)
    (hhl : st.highlighter = none) (hicb : st.in_code_block = true) :
    processText ctx st text = (st, .Text text) := by
  unfold processText
  rw [hhl]
  simp [hicb]

theorem processText_inline_err {ctx : Context} {st : RenderState} {text : String} {e : String}
    (hhl : st.highlighter = none) (hicb : st.in_code_block = false)
    (hsb : st.shortcode_block = none)
    (hst : startsWithS text "\x7b\x7b" = true) (hen : endsWithS text "\x7d\x7d" = true)
    (hre : ctx.shortcode_re text = true)
    (hrend : ctx.render_simple_shortcode (ctx.parse_shortcode text).1
      (ctx.parse_shortcode text).2 = .error e) :
    processText ctx st text =
      ({ st with added_shortcode := true, error := some e }, .Html "") := by
  unfold processText
  rw [hhl]
  simp [hicb, hsb, hst, hen, hre, hrend]

theorem processText_inline_ok {ctx : Context} {st : RenderState} {text : String} {s : String}
    (hhl : st.highlighter = none) (hicb : st.in_code_block = false)
    (hsb : st.shortcode_block = none)
    (hst : startsWithS text "\x7b\x7b" = true) (hen : endsWithS text "\x7d\x7d" = true)
    (hre : ctx.shortcode_re text = true)
    (hrend : ctx.render_simple_shortcode (ctx.parse_shortcode text).1
      (ctx.parse_shortcode text).2 = .ok s) :
    processText ctx st text =
      ({ st with added_shortcode := true }, .Html ("</p>" ++ s)) := by
  unfold processText
  rw [hhl]
  simp [hicb, hsb, hst, hen, hre, hrend]

theorem processText_block_open {ctx : Context} {st : RenderState} {text : String}
    (hhl : st.highlighter = none) (hicb : st.in_code_block = false)
    (hsb : st.shortcode_block = none)
    (hst : startsWithS text "\x7b%" = true) (hen : endsWithS text "%\x7d" = true)
    (hre : ctx.shortcode_re text = true) :
    processText ctx st text =
      ({ st with shortcode_block := some (ShortCode.new (ctx.parse_shortcode text).1 (ctx.parse_shortcode text).2) },
        .Text "") := by
  unfold processText
  rw [hhl]
  simp [hicb, hsb, hst, hen, hre, startsWithS_pc_not_bb hst]

theorem processText_block_nonmatching {ctx : Context} {st : RenderState} {text : String}
    (hhl : st.highlighter = none) (hicb : st.in_code_block = false)
    (hsb : st.shortcode_block = none)
    (hst : startsWithS text "\x7b%" = true) (hen : endsWithS text "%\x7d" = true)
    (hre : ctx.shortcode_re text = false) :
    processText ctx st text = (st, .Text "") := by
  unfold processText
  rw [hhl]
  simp [hicb, hsb, hst, hen, hre, startsWithS_pc_not_bb hst]

theorem processText_body_append {ctx : Context} {st : RenderState} {text : String}
    {sc : ShortCode}
    (hhl : st.highlighter = none) (hicb : st.in_code_block = false)
    (hsb : st.shortcode_block = some sc)
    (htr : (trimS text == "\x7b% end %\x7d") = false) :
    processText ctx st text =
      ({ st with shortcode_block := some (sc.append text) }, .Html "") := by
  unfold processText
  rw [hhl]
  simp [hicb, hsb, htr]

theorem processText_body_end_ok {ctx : Context} {st : RenderState} {text : String}
    {sc : ShortCode} {s : String}
    (hhl : st.highlighter = none) (hicb : st.in_code_block = false)
    (hsb : st.shortcode_block = some sc)
    (htr : (trimS text == "\x7b% end %\x7d") = true)
    (hrend : ctx.render_shortcode sc.name sc.args sc.body = .ok s) :
    processText ctx st text =
      ({ st with added_shortcode := true }, .Html ("</p>" ++ s)) := by
  unfold processText
  rw [hhl]
  simp [hicb, hsb, htr, hrend]

theorem processText_body_end_err {ctx : Context} {st : RenderState} {text : String}
    {sc : ShortCode} {e : String}
    (hhl : st.highlighter = none) (hicb : st.in_code_block = false)
    (hsb : st.shortcode_block = some sc)
    (htr : (trimS text == "\x7b% end %\x7d") = true)
    (hrend : ctx.render_shortcode sc.name sc.args sc.body = .error e) :
    processText ctx st text =
      ({ st with added_shortcode := true, error := some e }, .Html "") := by
  unfold processText
  rw [hhl]
  simp [hicb, hsb, htr, hrend]

theorem processText_anchors (ctx : Context) (st : RenderState) (text : String) :
    (processText ctx st text).1.anchors = st.anchors ∨
      (processText ctx st text).1.anchors =
        st.anchors ++ [find_anchor_unbounded st.anchors (ctx.slugify text) 0] := by
  unfold processText
  cases h : st.highlighter with
  | some hl => simp
  | none =>
      repeat' split
      all_goals simp

theorem processEvent_anchors (ctx : Context) (sh : Bool) (st : RenderState) (ev : Event) :
    (processEvent ctx sh st ev).1.anchors = st.anchors ∨
      ∃ nm, (processEvent ctx sh st ev).1.anchors =
        st.anchors ++ [find_anchor_unbounded st.anchors nm 0] := by
  cases ev with
  | Text text =>
      rcases processText_anchors ctx st text with h | h
      · exact Or.inl h
      · exact Or.inr ⟨ctx.slugify text, h⟩
  | Html s => exact Or.inl rfl
  | Start t =>
      cases t <;> simp only [processEvent] <;> repeat' split
      all_goals simp_all
  | End t =>
      cases t <;> simp only [processEvent] <;> repeat' split
      all_goals simp_all
  | SoftBreak =>
      simp only [processEvent]
      repeat' split
      all_goals simp_all
  | Other k => exact Or.inl rfl

set_option maxHeartbeats 1000000 in
theorem processText_error_override (ctx : Context) (st : RenderState) (text : String)
    (p : Option String) :
    processText ctx { st with error := p } text =
      ({ (processText ctx { st with error := none } text).1 with
          error := ((processText ctx { st with error := none } text).1.error).or p },
        (processText ctx { st with error := none } text).2) := by
  obtain ⟨er, hl, sb, ads, icb, inh, hai, anc, hds, th⟩ := st
  unfold processText
  cases hl with
  | some h => simp [Option.or]
  | none =>
      repeat' split
      all_goals simp_all [Option.or]

set_option maxHeartbeats 1000000 in
theorem processEvent_error_override (ctx : Context) (sh : Bool) (st : RenderState)
    (ev : Event) (p : Option String) :
    processEvent ctx sh { st with error := p } ev =
      ({ (processEvent ctx sh { st with error := none } ev).1 with
          error := ((processEvent ctx sh { st with error := none } ev).1.error).or p },
        (processEvent ctx sh { st with error := none } ev).2) := by
  cases ev with
  | Text text => exact processText_error_override ctx st text p
  | Html s => simp [processEvent, Option.or]
  | Start t =>
      obtain ⟨er, hl, sb, ads, icb, inh, hai, anc, hds, th⟩ := st
      cases t <;> simp only [processEvent] <;> repeat' split
      all_goals simp_all [Option.or]
  | End t =>
      obtain ⟨er, hl, sb, ads, icb, inh, hai, anc, hds, th⟩ := st
      cases t <;> simp only [processEvent] <;> repeat' split
      all_goals simp_all [Option.or]
  | SoftBreak =>
      obtain ⟨er, hl, sb, ads, icb, inh, hai, anc, hds, th⟩ := st
      simp only [processEvent]
      repeat' split
      all_goals simp_all [Option.or]
  | Other k => simp [processEvent, Option.or]

theorem processEvent_error_or_empty (ctx : Context) (sh : Bool) (st : RenderState)
    (ev : Event) :
    (processEvent ctx sh st ev).1.error = st.error ∨
      (processEvent ctx sh st ev).2 = .Html "" := by
  obtain ⟨er, hl, sb, ads, icb, inh, hai, anc, hds, th⟩ := st
  cases ev with
  | Text text =>
      simp only [processEvent]
      unfold processText
      cases hl with
      | some h => simp
      | none =>
          repeat' split
          all_goals simp_all
  | Html s => exact Or.inl rfl
  | Start t =>
      cases t <;> simp only [processEvent] <;> repeat' split
      all_goals simp_all
  | End t =>
      cases t <;> simp only [processEvent] <;> repeat' split
      all_goals simp_all
  | SoftBreak =>
      simp only [processEvent]
      repeat' split
      all_goals simp_all
  | Other k => exact Or.inl rfl

theorem processEvent_highlighter_none (ctx : Context) (st : RenderState) (ev : Event)
    (h : st.highlighter = none) :
    (processEvent ctx false st ev).1.highlighter = none := by
  obtain ⟨er, hl, sb, ads, icb, inh, hai, anc, hds, th⟩ := st
  simp only at h
  subst h
  cases ev with
  | Text text =>
      simp only [processEvent]
      unfold processText
      repeat' split
      all_goals simp_all
  | Html s => rfl
  | Start t =>
      cases t <;> simp only [processEvent] <;> repeat' split
      all_goals simp_all
  | End t =>
      cases t <;> simp only [processEvent] <;> repeat' split
      all_goals simp_all
  | SoftBreak =>
      simp only [processEvent]
      repeat' split
      all_goals simp_all
  | Other k => rfl

/-! ### Whole-pass lemmas -/

theorem processEvents_length (ctx : Context) (sh : Bool) :
    ∀ (evs : List Event) (st : RenderState),
      (processEvents ctx sh st evs).2.length = evs.length := by
  intro evs
  induction evs with
  | nil => intro st; rfl
  | cons ev evs ih => intro st; simp [processEvents, ih]

theorem processEvents_error_override (ctx : Context) (sh : Bool) :
    ∀ (evs : List Event) (st : RenderState) (p : Option String),
      (processEvents ctx sh { st with error := p } evs).1.error =
        ((processEvents ctx sh { st with error := none } evs).1.error).or p := by
  intro evs
  induction evs with
  | nil => intro st p; simp [processEvents]
  | cons ev evs ih =>
      intro st p
      simp only [processEvents]
      rw [processEvent_error_override ctx sh st ev p]
      have h2 : (processEvents ctx sh (processEvent ctx sh { st with error := none } ev).1 evs).1.error
          = ((processEvents ctx sh { (processEvent ctx sh { st with error := none } ev).1 with error := none } evs).1.error).or
              ((processEvent ctx sh { st with error := none } ev).1.error) := by
        conv_lhs =>
          rw [show (processEvent ctx sh { st with error := none } ev).1
            = { (processEvent ctx sh { st with error := none } ev).1 with
                error := (processEvent ctx sh { st with error := none } ev).1.error } from rfl]
        exact ih _ _
      rw [ih _ _, h2, Option.or_assoc]

theorem markdown_to_html_of_error (content : String) (ctx : Context) (e : String)
    (h : (processEvents ctx (shouldHighlight content ctx) {} (ctx.tokenize content)).1.error
      = some e) :
    markdown_to_html content ctx = .error e := by
  simp only [markdown_to_html, h]

theorem traceStates_invariant (ctx : Context) (sh : Bool) (P : RenderState → Prop)
    (hstep : ∀ st ev, P st → P (processEvent ctx sh st ev).1) :
    ∀ (evs : List Event) (st : RenderState), P st →
      ∀ s ∈ traceStates ctx sh st evs, P s := by
  intro evs
  induction evs with
  | nil =>
      intro st hP s hs
      simp only [traceStates, List.mem_singleton] at hs
      subst hs
      exact hP
  | cons ev evs ih =>
      intro st hP s hs
      simp only [traceStates, List.mem_cons] at hs
      rcases hs with rfl | hs
      · exact hP
      · exact ih _ (hstep st ev hP) s hs

theorem processEvent_nodup (ctx : Context) (sh : Bool) (st : RenderState) (ev : Event)
    (h : st.anchors.Nodup) : (processEvent ctx sh st ev).1.anchors.Nodup := by
  rcases processEvent_anchors ctx sh st ev with he | ⟨nm, he⟩ <;> rw [he]
  · exact h
  · have hnm := find_anchor_unbounded_not_mem st.anchors nm 0
    simp [List.nodup_append, h, hnm]

theorem processEvent_text (ctx : Context) (sh : Bool) (st : RenderState) (text : String) :
    processEvent ctx sh st (.Text text) = processText ctx st text := rfl

/-! ### Concrete contexts used by witnesses and counterexamples -/

/-- A plain context with inert collaborators; witnesses override the
fields they exercise. -/
def baseCtx : Context where
  highlight_code := false
  highlight_theme := "base16-ocean-dark"
  current_page_permalink := "/page/"
  insert_anchor := .None
  resolve_internal_link := fun _ => none
  render_simple_shortcode := fun _ _ => .ok ""
  render_shortcode := fun _ _ _ => .ok ""
  render_anchor_link := fun _ => ""
  shortcode_re := fun _ => false
  parse_shortcode := fun t => (t, [])
  slugify := fun t => t
  find_grammar_by_token := fun _ => none
  plain_grammar := "plain"
  highlight_line := fun _ _ => ""
  snippet_for_theme := fun _ => ""
  tokenize := fun _ => []
  push_html := fun _ => ""
  make_table_of_contents := fun hs => hs

/-- A context whose template engine fails on every inline shortcode, with
an error message naming the shortcode, and whose tokenizer yields two
distinct failing inline shortcodes. -/
def ctxTwoErrors : Context :=
  { baseCtx with
      shortcode_re := fun _ => true,
      render_simple_shortcode := fun nm _ => .error ("fail " ++ nm),
      tokenize := fun _ => [.Text "\x7b\x7ba\x7d\x7d", .Text "\x7b\x7bb\x7d\x7d"] }

/-- A context recognising the block shortcode `\x7b% sc %\x7d` and
rendering it to a fixed fragment. -/
def ctxBlockDemo : Context :=
  { baseCtx with
      shortcode_re := fun t => t == "\x7b% sc %\x7d",
      parse_shortcode := fun _ => ("sc", []),
      render_shortcode := fun _ _ _ => .ok "<b>out</b>" }

/-- The event stream of a document holding one block shortcode followed
by ordinary text. -/
def scEvents : List Event :=
  [.Text "\x7b% sc %\x7d", .Text "\x7b% end %\x7d", .Text "after"]

/-- A context with highlighting enabled in configuration and a tokenizer
yielding a code block. -/
def ctxNoFence : Context :=
  { baseCtx with
      highlight_code := true,
      tokenize := fun _ => [.Start (.CodeBlock "rust"), .Text "let x;", .End (.CodeBlock "rust")] }

/-- A context with a one-entry permalink table. -/
def ctxLinks : Context :=
  { baseCtx with
      resolve_internal_link := fun l => if l == "./ok.md" then some "/ok/" else none }

/-- A context whose tokenizer yields a short header-free stream. -/
def ctxTrace : Context :=
  { baseCtx with tokenize := fun _ => [.Text "hello", .SoftBreak] }

/-! ### The claims -/

/-- The registry holding the slug and every suffixed candidate
`slug-1` .. `slug-255`: the 8-bit wrap point of the allocator counter. -/
def wrapRegistry : List String :=
  "slug" :: (List.range 255).map (fun i => "slug-" ++ Nat.repr (i + 1))

/-- C4 (amended): if the slug is not already registered it is used
as-is; otherwise the allocator assigns `slug-N` where `N` is the
smallest suffix with `slug-N` unused among those its 8-bit counter
probes, namely 1, 2, .., 255 in order; when `slug-1` .. `slug-255` are
all registered the counter wraps past 255 and the next candidate probed
is `slug-0` (so the assigned suffix is 0, not the smallest unused
integer starting at 1), and when `slug-0` is registered as well the
allocator never terminates (debug builds panic at the overflow,
modelled as `none`). -/
theorem claim_C4 (anchors : List String) (slug : String) :
    (slug ∉ anchors → find_anchor anchors slug 0 = some slug) ∧
    (slug ∈ anchors →
      ((∃ M, 1 ≤ M ∧ M ≤ 255 ∧ (slug ++ "-" ++ Nat.repr M) ∉ anchors) →
        ∃ N, 1 ≤ N ∧ N ≤ 255 ∧
          find_anchor anchors slug 0 = some (slug ++ "-" ++ Nat.repr N) ∧
          (slug ++ "-" ++ Nat.repr N) ∉ anchors ∧
          ∀ M, 1 ≤ M → M < N → (slug ++ "-" ++ Nat.repr M) ∈ anchors) ∧
      ((∀ M, 1 ≤ M → M ≤ 255 → (slug ++ "-" ++ Nat.repr M) ∈ anchors) →
        ((slug ++ "-" ++ Nat.repr 0) ∉ anchors →
          find_anchor anchors slug 0 = some (slug ++ "-" ++ Nat.repr 0)) ∧
        ((slug ++ "-" ++ Nat.repr 0) ∈ anchors →
          find_anchor anchors slug 0 = none))) := by
  refine ⟨?_, ?_⟩
  · intro h
    have hc : anchors.contains slug = false := by simpa using h
    exact find_anchor_go_fast anchors slug hc 257
  · intro hm
    refine ⟨?_, ?_⟩
    · intro hex
      rcases find_anchor_unbounded_spec anchors slug 0 (by intro M h1 h2; omega)
        (Or.inr hm) with ⟨N, hfa, hN1, hNf, hNmin⟩
      have hN255 : N ≤ 255 := by
        rcases hex with ⟨M, hM1, hM2, hMf⟩
        by_contra hcon
        exact hMf (hNmin M hM1 (by omega))
      have hag : find_anchor anchors slug 0 =
          some (find_anchor_unbounded anchors slug 0) := by
        unfold find_anchor
        rw [Nat.zero_mod]
        exact find_anchor_go_agree anchors slug 255 258 0 (by omega) (by omega)
          (by omega) (fun _ => hm)
          (by rcases hex with ⟨M, h1, h2, h3⟩; exact ⟨M, by omega, h2, h3⟩)
      refine ⟨N, by omega, hN255, ?_, hNf, hNmin⟩
      rw [hag, hfa]
      rfl
    · intro hall
      constructor
      · intro h0f
        unfold find_anchor
        rw [Nat.zero_mod]
        exact find_anchor_go_wrap anchors slug hm hall h0f 255 0 258 (by omega)
          (by omega) (by omega)
      · intro h0
        unfold find_anchor
        rw [Nat.zero_mod]
        exact find_anchor_go_none anchors slug hm hall h0 258 0 (by omega)

/-- C4 witness: with registry `["a", "a-1"]` and slug `"a"`, the
collision branch applies below the wrap point. -/
theorem claim_C4_witness :
    ("a" ∈ ["a", "a-1"]) ∧
      (∃ M, 1 ≤ M ∧ M ≤ 255 ∧ ("a" ++ "-" ++ Nat.repr M) ∉ (["a", "a-1"] : List String)) ∧
      (∃ N, 1 ≤ N ∧ N ≤ 255 ∧
        find_anchor ["a", "a-1"] "a" 0 = some ("a" ++ "-" ++ Nat.repr N) ∧
        ("a" ++ "-" ++ Nat.repr N) ∉ (["a", "a-1"] : List String) ∧
        ∀ M, 1 ≤ M → M < N → ("a" ++ "-" ++ Nat.repr M) ∈ (["a", "a-1"] : List String)) :=
  ⟨by simp, ⟨2, by omega, by omega, by decide⟩,
    ((claim_C4 ["a", "a-1"] "a").2 (by simp)).1 ⟨2, by omega, by omega, by decide⟩⟩

/-- C4 counterexample: with the slug and all of `slug-1` .. `slug-255`
registered (reachable with 257 identically slugged headers), the 8-bit
counter wraps and the allocator returns `slug-0`, so it does not assign
`slug-N` for any `N` starting at 1, refuting the claim as stated. -/
theorem claim_C4_counterexample :
    ("slug" ∈ wrapRegistry) ∧
      find_anchor wrapRegistry "slug" 0 = some ("slug" ++ "-" ++ Nat.repr 0) ∧
      ¬ ∃ N, 1 ≤ N ∧
        find_anchor wrapRegistry "slug" 0 = some ("slug" ++ "-" ++ Nat.repr N) := by
  have hm : "slug" ∈ wrapRegistry := List.mem_cons_self _ _
  have hall : ∀ M, 1 ≤ M → M ≤ 255 → anchorName "slug" M ∈ wrapRegistry := by
    intro M h1 h2
    show ("slug" ++ "-" ++ Nat.repr M) ∈ wrapRegistry
    have he : ("slug" ++ "-" ++ Nat.repr M) = "slug-" ++ Nat.repr M := rfl
    rw [he]
    refine List.mem_cons_of_mem _
      (List.mem_map.mpr ⟨M - 1, List.mem_range.mpr (by omega), ?_⟩)
    have h3 : M - 1 + 1 = M := by omega
    rw [h3]
  have h0f : anchorName "slug" 0 ∉ wrapRegistry := by
    intro hmem
    rcases List.mem_cons.mp hmem with he | hmem2
    · exact absurd he (by decide)
    · rcases List.mem_map.mp hmem2 with ⟨i, _, he⟩
      have he2 : "slug-" ++ Nat.repr (i + 1) = "slug-" ++ Nat.repr 0 := he
      have := natRepr_inj (strAppend_cancel he2)
      omega
  have heval : find_anchor wrapRegistry "slug" 0 = some (anchorName "slug" 0) := by
    unfold find_anchor
    rw [Nat.zero_mod]
    exact find_anchor_go_wrap wrapRegistry "slug" hm hall h0f 255 0 258 (by omega)
      (by omega) (by omega)
  refine ⟨hm, heval, ?_⟩
  rintro ⟨N, hN1, hN⟩
  rw [heval] at hN
  have h2 : anchorName "slug" 0 = anchorName "slug" N := Option.some.inj hN
  have h3 := anchorName_inj "slug" h2
  omega

/-- C5: throughout one rendering call, the sequence of assigned header
identifiers contains no duplicates: every state the transformer passes
through has a duplicate-free `anchors` registry. -/
theorem claim_C5 (content : String) (ctx : Context) :
    ∀ s ∈ traceStates ctx (shouldHighlight content ctx) {} (ctx.tokenize content),
      s.anchors.Nodup :=
  traceStates_invariant ctx (shouldHighlight content ctx) (fun s => s.anchors.Nodup)
    (fun st ev hP => processEvent_nodup ctx (shouldHighlight content ctx) st ev hP)
    (ctx.tokenize content) {} (by simp)

/-- C5 witness: the invariant instantiated on a concrete run. -/
theorem claim_C5_witness :
    (({} : RenderState) ∈
        traceStates ctxTrace (shouldHighlight "doc" ctxTrace) {} (ctxTrace.tokenize "doc")) ∧
      (({} : RenderState)).anchors.Nodup :=
  ⟨by simp [traceStates], claim_C5 "doc" ctxTrace {} (by simp [traceStates])⟩

/-- C3: code highlighting is active for the whole call iff highlighting
is enabled in configuration and the raw source contains the literal
fenced-code marker; when the flag computes to false, no state of the run
ever holds a constructed highlighter (so the highlighter is neither
constructed nor invoked). -/
theorem claim_C3 (content : String) (ctx : Context) :
    (shouldHighlight content ctx = true ↔
      ctx.highlight_code = true ∧ containsSubstr content "```" = true) ∧
    (shouldHighlight content ctx = false →
      ∀ s ∈ traceStates ctx (shouldHighlight content ctx) {} (ctx.tokenize content),
        s.highlighter = none) := by
  constructor
  · unfold shouldHighlight
    by_cases h : ctx.highlight_code <;> simp [h]
  · intro hsh
    rw [hsh]
    exact traceStates_invariant ctx false (fun s => s.highlighter = none)
      (fun st ev hP => processEvent_highlighter_none ctx st ev hP)
      (ctx.tokenize content) {} rfl

/-- C3 witness: highlighting enabled in configuration but no fence in the
source; the run (which does meet a code block event) never holds a
highlighter. -/
theorem claim_C3_witness :
    (shouldHighlight "no fences here" ctxNoFence = false) ∧
      ∀ s ∈ traceStates ctxNoFence (shouldHighlight "no fences here" ctxNoFence) {}
          (ctxNoFence.tokenize "no fences here"), s.highlighter = none :=
  ⟨rfl, (claim_C3 "no fences here" ctxNoFence).2 rfl⟩

/-- C8: link-start and link-end events arriving while `in_header` is set
emit nothing (empty Html output) and leave the state unchanged. -/
theorem claim_C8 (ctx : Context) (sh : Bool) (st : RenderState) (link title : String)
    (h : st.in_header = true) :
    processEvent ctx sh st (.Start (.Link link title)) = (st, .Html "") ∧
    processEvent ctx sh st (.End (.Link link title)) = (st, .Html "") := by
  constructor <;> simp [processEvent, h]

/-- C8 witness: a concrete in-header state with a concrete link. -/
theorem claim_C8_witness :
    (({ in_header := true } : RenderState).in_header = true) ∧
      (processEvent baseCtx false { in_header := true } (.Start (.Link "./x.md" "t"))
          = ({ in_header := true }, .Html "") ∧
        processEvent baseCtx false { in_header := true } (.End (.Link "./x.md" "t"))
          = ({ in_header := true }, .Html "")) :=
  ⟨rfl, claim_C8 baseCtx false { in_header := true } "./x.md" "t" rfl⟩

/-- C9: a Text event outside any code block with no open builder whose
text is delimited by the block-shortcode markers but does not match the
shortcode grammar emits empty text output, opens no builder, and leaves
the state unchanged (the fragment is silently dropped). -/
theorem claim_C9 (ctx : Context) (sh : Bool) (st : RenderState) (text : String)
    (hhl : st.highlighter = none) (hicb : st.in_code_block = false)
    (hsb : st.shortcode_block = none)
    (hst : startsWithS text "\x7b%" = true) (hen : endsWithS text "%\x7d" = true)
    (hre : ctx.shortcode_re text = false) :
    processEvent ctx sh st (.Text text) = (st, .Text "") :=
  processText_block_nonmatching hhl hicb hsb hst hen hre

/-- C9 witness: the non-matching fragment `\x7b% bad %\x7d` under a
grammar that rejects it. -/
theorem claim_C9_witness :
    (({} : RenderState).highlighter = none) ∧
      (({} : RenderState).in_code_block = false) ∧
      (({} : RenderState).shortcode_block = none) ∧
      (startsWithS "\x7b% bad %\x7d" "\x7b%" = true) ∧
      (endsWithS "\x7b% bad %\x7d" "%\x7d" = true) ∧
      (baseCtx.shortcode_re "\x7b% bad %\x7d" = false) ∧
      processEvent baseCtx false {} (.Text "\x7b% bad %\x7d") = ({}, .Text "") :=
  ⟨rfl, rfl, rfl, rfl, rfl, rfl,
    claim_C9 baseCtx false {} "\x7b% bad %\x7d" rfl rfl rfl rfl rfl rfl⟩

/-- C10: a failing inline shortcode still sets `added_shortcode` while
recording the error and emitting empty output, and a paragraph-end event
arriving with `added_shortcode` set is suppressed (exactly as on the
success path). -/
theorem claim_C10 :
    (∀ (ctx : Context) (sh : Bool) (st : RenderState) (text e : String),
      st.highlighter = none → st.in_code_block = false → st.shortcode_block = none →
      startsWithS text "\x7b\x7b" = true → endsWithS text "\x7d\x7d" = true →
      ctx.shortcode_re text = true →
      ctx.render_simple_shortcode (ctx.parse_shortcode text).1 (ctx.parse_shortcode text).2
        = .error e →
      processEvent ctx sh st (.Text text) =
        ({ st with added_shortcode := true, error := some e }, .Html "")) ∧
    (∀ (ctx : Context) (sh : Bool) (st : RenderState),
      st.added_shortcode = true →
      processEvent ctx sh st (.End .Paragraph) =
        ({ st with added_shortcode := false }, .Html "")) := by
  constructor
  · intro ctx sh st text e hhl hicb hsb hst hen hre hrend
    exact processText_inline_err hhl hicb hsb hst hen hre hrend
  · intro ctx sh st h
    simp [processEvent, h]

/-- C10 witness: a concrete failing inline shortcode, then the suppressed
paragraph end. -/
theorem claim_C10_witness :
    (ctxTwoErrors.render_simple_shortcode
        (ctxTwoErrors.parse_shortcode "\x7b\x7bx\x7d\x7d").1
        (ctxTwoErrors.parse_shortcode "\x7b\x7bx\x7d\x7d").2
      = .error "fail \x7b\x7bx\x7d\x7d") ∧
      (processEvent ctxTwoErrors false {} (.Text "\x7b\x7bx\x7d\x7d") =
        ({ added_shortcode := true, error := some "fail \x7b\x7bx\x7d\x7d" }, .Html "")) ∧
      (({ added_shortcode := true } : RenderState).added_shortcode = true) ∧
      (processEvent ctxTwoErrors false { added_shortcode := true } (.End .Paragraph) =
        ({ added_shortcode := false }, .Html "")) :=
  ⟨rfl,
    claim_C10.1 ctxTwoErrors false {} "\x7b\x7bx\x7d\x7d" "fail \x7b\x7bx\x7d\x7d"
      rfl rfl rfl rfl rfl rfl rfl,
    rfl,
    claim_C10.2 ctxTwoErrors false { added_shortcode := true } rfl⟩

/-- C7: shortcode recognition happens only on Text events with
`in_code_block` unset and no open builder: under an active highlighter
the text is highlighted only, inside a code block it passes through
unchanged, and while a builder is open the event only extends or closes
that builder (same name and arguments; no new invocation is ever
recognised from body text). -/
theorem claim_C7 (ctx : Context) (sh : Bool) (st : RenderState) (text : String) :
    (∀ hl, st.highlighter = some hl →
      processEvent ctx sh st (.Text text) =
        ({ st with highlighter := some { hl with processed := hl.processed ++ [text] } },
          .Html (ctx.highlight_line hl text))) ∧
    (st.highlighter = none → st.in_code_block = true →
      processEvent ctx sh st (.Text text) = (st, .Text text)) ∧
    (∀ sc, st.highlighter = none → st.in_code_block = false →
      st.shortcode_block = some sc →
      (processEvent ctx sh st (.Text text)).1.shortcode_block =
        some (if trimS text == "\x7b% end %\x7d" then sc else sc.append text)) := by
  refine ⟨?_, ?_, ?_⟩
  · intro hl h
    exact processText_highlighting text h
  · intro hhl hicb
    exact processText_in_code_block text hhl hicb
  · intro sc hhl hicb hsb
    rw [processEvent_text]
    by_cases htr : (trimS text == "\x7b% end %\x7d") = true
    · rw [if_pos htr]
      cases hrend : ctx.render_shortcode sc.name sc.args sc.body with
      | ok s => rw [processText_body_end_ok hhl hicb hsb htr hrend]; simpa using hsb
      | error e => rw [processText_body_end_err hhl hicb hsb htr hrend]; simpa using hsb
    · rw [if_neg htr,
        processText_body_append hhl hicb hsb (by simpa using htr)]

/-- C7 witness: body text while a builder is open extends that builder
and is not re-interpreted. -/
theorem claim_C7_witness :
    (({ shortcode_block := some (ShortCode.new "sc" []) } : RenderState).highlighter
        = none) ∧
      (({ shortcode_block := some (ShortCode.new "sc" []) } : RenderState).in_code_block
        = false) ∧
      (({ shortcode_block := some (ShortCode.new "sc" []) } : RenderState).shortcode_block
        = some (ShortCode.new "sc" [])) ∧
      (processEvent baseCtx false { shortcode_block := some (ShortCode.new "sc" []) }
          (.Text "body")).1.shortcode_block =
        some (if trimS "body" == "\x7b% end %\x7d" then ShortCode.new "sc" []
          else (ShortCode.new "sc" []).append "body") :=
  ⟨rfl, rfl, rfl,
    (claim_C7 baseCtx false { shortcode_block := some (ShortCode.new "sc" []) } "body").2.2
      (ShortCode.new "sc" []) rfl rfl rfl⟩

/-- C6: a link-start event outside a header whose target begins with
`./` is rewritten to the resolved permalink when the table resolves it;
when the lookup fails the event emits empty output and records the
"Relative link ... not found" error, and a call whose final state holds
an error returns that failure with no partial HTML or table of
contents. -/
theorem claim_C6 :
    (∀ (ctx : Context) (sh : Bool) (st : RenderState) (link title url : String),
      st.in_header = false → startsWithS link "./" = true →
      ctx.resolve_internal_link link = some url →
      processEvent ctx sh st (.Start (.Link link title)) = (st, .Start (.Link url title))) ∧
    (∀ (ctx : Context) (sh : Bool) (st : RenderState) (link title : String),
      st.in_header = false → startsWithS link "./" = true →
      ctx.resolve_internal_link link = none →
      processEvent ctx sh st (.Start (.Link link title)) =
        ({ st with error := some ("Relative link " ++ link ++ " not found.") }, .Html "")) ∧
    (∀ (content : String) (ctx : Context) (e : String),
      (processEvents ctx (shouldHighlight content ctx) {} (ctx.tokenize content)).1.error
        = some e →
      markdown_to_html content ctx = .error e) := by
  refine ⟨?_, ?_, ?_⟩
  · intro ctx sh st link title url hh hs hr
    simp [processEvent, hh, hs, hr]
  · intro ctx sh st link title hh hs hr
    simp [processEvent, hh, hs, hr]
  · intro content ctx e h
    exact markdown_to_html_of_error content ctx e h

/-- C6 witness: a resolvable and an unresolvable relative link against a
concrete permalink table. -/
theorem claim_C6_witness :
    (ctxLinks.resolve_internal_link "./ok.md" = some "/ok/") ∧
      (processEvent ctxLinks false {} (.Start (.Link "./ok.md" "t"))
        = ({}, .Start (.Link "/ok/" "t"))) ∧
      (ctxLinks.resolve_internal_link "./missing.md" = none) ∧
      (processEvent ctxLinks false {} (.Start (.Link "./missing.md" "t"))
        = ({ error := some ("Relative link " ++ "./missing.md" ++ " not found.") }, .Html "")) :=
  ⟨rfl,
    claim_C6.1 ctxLinks false {} "./ok.md" "t" "/ok/" rfl rfl rfl,
    rfl,
    claim_C6.2.1 ctxLinks false {} "./missing.md" "t" rfl rfl rfl⟩

/-- C1 (amended): every template-rendering or link-resolution failure
leaves the stream fully consumed (the pass never short-circuits), the
offending event emits empty Html output, the stored error makes the call
return that error rather than the accumulated HTML and table of
contents, and when several failures occur each new failure overwrites
the stored error, so the error returned is the last one encountered
(earlier errors are dropped). -/
theorem claim_C1 :
    (∀ (ctx : Context) (sh : Bool) (st : RenderState) (evs : List Event),
      (processEvents ctx sh st evs).2.length = evs.length) ∧
    (∀ (ctx : Context) (sh : Bool) (st : RenderState) (ev : Event),
      (processEvent ctx sh st ev).1.error ≠ st.error →
      (processEvent ctx sh st ev).2 = .Html "") ∧
    (∀ (ctx : Context) (sh : Bool) (st : RenderState) (ev : Event) (p : Option String),
      processEvent ctx sh { st with error := p } ev =
        ({ (processEvent ctx sh { st with error := none } ev).1 with
            error := ((processEvent ctx sh { st with error := none } ev).1.error).or p },
          (processEvent ctx sh { st with error := none } ev).2)) ∧
    (∀ (ctx : Context) (sh : Bool) (st : RenderState) (evs : List Event) (p : Option String),
      (processEvents ctx sh { st with error := p } evs).1.error =
        ((processEvents ctx sh { st with error := none } evs).1.error).or p) ∧
    (∀ (content : String) (ctx : Context) (e : String),
      (processEvents ctx (shouldHighlight content ctx) {} (ctx.tokenize content)).1.error
        = some e →
      markdown_to_html content ctx = .error e) := by
  refine ⟨?_, ?_, ?_, ?_, ?_⟩
  · intro ctx sh st evs
    exact processEvents_length ctx sh evs st
  · intro ctx sh st ev h
    rcases processEvent_error_or_empty ctx sh st ev with he | he
    · exact absurd he h
    · exact he
  · intro ctx sh st ev p
    exact processEvent_error_override ctx sh st ev p
  · intro ctx sh st evs p
    exact processEvents_error_override ctx sh evs st p
  · intro content ctx e h
    exact markdown_to_html_of_error content ctx e h

/-- C1 witness: a concrete two-failure run; the second failure is the
stored error and the call returns it. -/
theorem claim_C1_witness :
    ((processEvents ctxTwoErrors (shouldHighlight "doc" ctxTwoErrors) {}
        (ctxTwoErrors.tokenize "doc")).1.error = some "fail \x7b\x7bb\x7d\x7d") ∧
      markdown_to_html "doc" ctxTwoErrors = .error "fail \x7b\x7bb\x7d\x7d" :=
  ⟨rfl, claim_C1.2.2.2.2 "doc" ctxTwoErrors "fail \x7b\x7bb\x7d\x7d" rfl⟩

/-- C1 counterexample: two failing inline shortcodes; the first failure
encountered stores `fail \x7b\x7ba\x7d\x7d`, yet the call returns
`fail \x7b\x7bb\x7d\x7d`, the later one - so the first error does not
win, refuting the claim as stated. -/
theorem claim_C1_counterexample :
    ((processEvent ctxTwoErrors false {} (.Text "\x7b\x7ba\x7d\x7d")).1.error
        = some "fail \x7b\x7ba\x7d\x7d") ∧
      markdown_to_html "doc" ctxTwoErrors = .error "fail \x7b\x7bb\x7d\x7d" ∧
      ("fail \x7b\x7ba\x7d\x7d" : String) ≠ "fail \x7b\x7bb\x7d\x7d" := by
  refine ⟨rfl, rfl, by decide⟩

/-- C2: at the closing marker the builder renders and `</p>` plus the
rendered HTML is emitted with `added_shortcode` set, and other body text
is appended verbatim emitting empty output - but the builder is NOT
cleared by the source (no assignment ever resets `shortcode_block`), so
after `\x7b% end %\x7d` the still-open builder swallows the following
text (`after` emits empty output and lands in the stale body), contrary
to the claim and the spec. -/
theorem claim_C2_failing_eval :
    (processEvents ctxBlockDemo false {} scEvents).2 =
        [.Text "", .Html "</p><b>out</b>", .Html ""] ∧
      (processEvents ctxBlockDemo false {} scEvents).1.shortcode_block =
        some { name := "sc", args := [], body := "after" } := by
  constructor <;> rfl
